import Mathlib

/-!
Shallow embedding of the core of the celestia-node-rs light node
(header exchange client, syncer, pruner) together with proofs about it.

Machine integers (u64 heights, amounts, instants) are modelled as `Nat`;
wall-clock times (`celestia_tendermint::Time`) as `Int` seconds since the
unix epoch.  Fallible operations return `Except`.  Async control flow is
modelled by explicit state passing; loops whose termination is in
question take a fuel parameter, `none` meaning that the loop has not
returned within the given fuel.
-/

namespace CelestiaNode

/-- Model of `celestia_types::ExtendedHeader`: only the fields the core
consumes are kept - a positive monotone height, a content-addressed hash
(modelled as `Nat`) and a wall-clock time (`Int` seconds). -/
structure ExtendedHeader where
  height : Nat
  hash : Nat
  time : Int
  deriving DecidableEq, Repr

/-- Model of `StoreError` (`src/node/src/store`): the variants consumed by
the core.  Backend faults of the underlying key-value engine are collapsed
into `backingStore`. -/
inductive StoreError where
  | notFound
  | nonContinuousAppend (head attempted : Nat)
  | heightExists (height : Nat)
  | hashExists (hash : Nat)
  | backingStore
  deriving DecidableEq, Repr

/-- Model of `libp2p::request_response::OutboundFailure`. -/
inductive OutboundFailureKind where
  | timeout
  | connectionClosed
  | dial
  | io
  deriving DecidableEq, Repr

/-- Model of `ExchangeError` (`src/node/src/exchange`). -/
inductive ExchangeError where
  | invalidRequest
  | invalidResponse
  | headerNotFound
  | outboundFailure (kind : OutboundFailureKind)
  deriving DecidableEq, Repr

/-- Model of `P2pError` restricted to the variants the syncer consumes. -/
inductive P2pError where
  | exchange (e : ExchangeError)
  | noConnectedPeers
  deriving DecidableEq, Repr

/-- Model of `PrunerError` (`src/node/src/pruner.rs`). -/
inductive PrunerError where
  | store (e : StoreError)
  | blockstore
  deriving DecidableEq, Repr

/-- Reason string carried by `NodeEvent::FetchingHeadersFailed`, modelled
by the source error instead of its rendered string. -/
inductive FailureReason where
  | p2p (e : P2pError)
  | store (e : StoreError)
  deriving DecidableEq, Repr

/-- Model of `NodeEvent` (`src/node/src/events.rs` is not under `src/`;
the variants and payloads follow the spec, section 6 "Events"). -/
inductive NodeEvent where
  | fetchingHeadHeaderStarted
  | fetchingHeadHeaderFinished (height : Nat) (took : Nat)
  | fetchingHeadersStarted (fromHeight toHeight : Nat)
  | fetchingHeadersFinished (fromHeight toHeight : Nat) (took : Nat)
  | fetchingHeadersFailed (fromHeight toHeight : Nat) (error : FailureReason) (took : Nat)
  | addedHeaderFromHeaderSub (height : Nat)
  | fatalPrunerError (error : PrunerError)
  deriving DecidableEq, Repr

/-- Fuse an ascending list of heights into inclusive ranges.  Used by the
store model to derive its `BlockRanges` view (spec: "a range summary
derivable from the key set"). -/
def rangesOfHeights : List Nat → List (Nat × Nat)
  | [] => []
  | h :: hs =>
    match rangesOfHeights hs with
    | [] => [(h, h)]
    | (lo, hi) :: rest => if h + 1 = lo then (h, hi) :: rest else (h, h) :: (lo, hi) :: rest

/-- Modelled from the spec: the abstract header `Store` collaborator
(spec section 6, "Store contract"); the `Store` trait and its in-memory
implementation are not under `src/`.  `headers` is the stored chain in
ascending height order, `metadata` the auxiliary sampling-metadata rows
(height to CID list).  `rangesFail` and `removeTailFail` are fault knobs
modelling a failing backend for `get_stored_header_ranges` and
`remove_tail` respectively. -/
structure StoreModel where
  headers : List ExtendedHeader
  metadata : List (Nat × List Nat)
  rangesFail : Bool
  removeTailFail : List Nat
  deriving DecidableEq, Repr

/-- Embedded from `IndexedDbStore::get_head` (`indexed_db_store.rs`): the
entry with the largest key, `NotFound` on an empty store. -/
def StoreModel.get_head (s : StoreModel) : Except StoreError ExtendedHeader :=
  match s.headers.getLast? with
  | none => .error .notFound
  | some h => .ok h

/-- Embedded from `IndexedDbStore::get_head_height`. -/
def StoreModel.head_height (s : StoreModel) : Except StoreError Nat :=
  s.get_head.map (·.height)

/-- Embedded from `IndexedDbStore::get_by_height`: `NotFound` when the
height index has no entry. -/
def StoreModel.get_by_height (s : StoreModel) (height : Nat) : Except StoreError ExtendedHeader :=
  match s.headers.find? (fun h => h.height == height) with
  | none => .error .notFound
  | some h => .ok h

/-- Modelled from the spec: `get_sampling_metadata(h) -> Option {cids}`;
the sampling-metadata store accessor is not under `src/`. -/
def StoreModel.get_sampling_metadata (s : StoreModel) (height : Nat) :
    Except StoreError (Option (List Nat)) :=
  .ok (s.metadata.lookup height)

/-- Modelled from the spec: `stored_header_ranges() -> BlockRanges`
(disjoint inclusive ranges over the stored heights); the trait method is
not under `src/`.  The `rangesFail` knob models a backend fault. -/
def StoreModel.get_stored_header_ranges (s : StoreModel) : Except StoreError (List (Nat × Nat)) :=
  if s.rangesFail then .error .backingStore else .ok (rangesOfHeights (s.headers.map (·.height)))

/-- Model of `BlockRanges::tail()`: the lowest stored height (head of the
first range), `none` when the store is empty. -/
def blockRangesTail (ranges : List (Nat × Nat)) : Option Nat :=
  ranges.head?.map (·.1)

/-- Modelled from the spec: `remove_last()` removes the tail header; the
trait method is not under `src/`.  A backend fault for a given expected
tail height is modelled by the `removeTailFail` knob. -/
def StoreModel.remove_tail (s : StoreModel) (height : Nat) : Except StoreError StoreModel :=
  if height ∈ s.removeTailFail then .error .backingStore
  else .ok { s with headers := s.headers.tail }

/-- Embedded from `IndexedDbStore::append_single_unchecked`
(`indexed_db_store.rs` lines 114-165): head-height continuity checks,
then the unique-height and unique-hash index checks, then the append. -/
def StoreModel.append_single_unchecked (s : StoreModel) (h : ExtendedHeader) :
    Except StoreError StoreModel :=
  let head_height := s.head_height.toOption.getD 0
  if 0 < head_height ∧ h.height ≤ head_height then .error (.heightExists h.height)
  else if head_height + 1 ≠ h.height then .error (.nonContinuousAppend head_height h.height)
  else if s.headers.any (fun e => e.height == h.height) then .error (.heightExists h.height)
  else if s.headers.any (fun e => e.hash == h.hash) then .error (.hashExists h.hash)
  else .ok { s with headers := s.headers ++ [h] }

/-- Modelled from the spec: `Store::insert(header_or_headers)` (the trait
impl is not under `src/`) appends a batch sequentially through
`append_single_unchecked`, stopping at the first error. -/
def StoreModel.insert (s : StoreModel) : List ExtendedHeader → Except StoreError StoreModel
  | [] => .ok s
  | h :: hs =>
    match s.append_single_unchecked h with
    | .error e => .error e
    | .ok s' => s'.insert hs

/-- Model of the syncer `BlockRange` (`RangeInclusive of u64`); the upper
bound is called `stop` because `end` is a Lean keyword. -/
structure BlockRange where
  start : Nat
  stop : Nat
  deriving DecidableEq, Repr

/-- Model of `SyncingInfo` (`src/node/src/syncer.rs`). -/
structure SyncingInfo where
  stored_headers : List (Nat × Nat)
  subjective_head : Nat
  deriving DecidableEq, Repr

/-- The claim-relevant state of the syncer `Worker`
(`src/node/src/syncer.rs`): the channels, cancellation tokens and p2p
handles are concurrency plumbing and carry no claim-relevant data. -/
structure WorkerState where
  subjective_head_height : Option Nat
  ongoing_batch : Option BlockRange
  store : StoreModel
  deriving DecidableEq, Repr

/-- Embedded from `Worker::new`: `subjective_head_height` starts as
`None` and no batch is ongoing. -/
def WorkerState.new (store : StoreModel) : WorkerState :=
  { subjective_head_height := none, ongoing_batch := none, store := store }

/-- Embedded from `Worker::syncing_info` (`syncer.rs` lines 323-332):
store-range errors are replaced by the default (empty) `BlockRanges`, an
unset subjective head is reported as 0. -/
def WorkerState.syncing_info (w : WorkerState) : SyncingInfo :=
  { stored_headers :=
      match w.store.get_stored_header_ranges with
      | .ok r => r
      | .error _ => []
    subjective_head := w.subjective_head_height.getD 0 }

/-- Embedded from `Worker::on_cmd` (`syncer.rs` lines 390-397): the
`GetInfo` command replies with the `syncing_info` snapshot. -/
def WorkerState.on_cmd_get_info (w : WorkerState) : SyncingInfo :=
  w.syncing_info

/-- Embedded from `Worker::set_subjective_head_height` (`syncer.rs` lines
430-438): a height not above the stored one is ignored. -/
def set_subjective_head_height (cur : Option Nat) (height : Nat) : Option Nat :=
  match cur with
  | some old => if height ≤ old then some old else some height
  | none => some height

/-- Embedded from `Worker::on_header_sub_message` (`syncer.rs` lines
399-428).  Returns the new worker state and the emitted events; the
header-sub latch content is passed explicitly. -/
def WorkerState.on_header_sub_message (w : WorkerState) (latch : Option ExtendedHeader) :
    WorkerState × List NodeEvent :=
  match w.subjective_head_height with
  | none => (w, [])
  | some _ =>
    match latch with
    | none => (w, [])
    | some new_head =>
      let new_head_height := new_head.height
      let w' := { w with
        subjective_head_height :=
          set_subjective_head_height w.subjective_head_height new_head_height }
      match w'.store.head_height with
      | .error _ => (w', [])
      | .ok store_head_height =>
        if store_head_height + 1 = new_head_height then
          match w'.store.insert [new_head] with
          | .ok store' =>
            ({ w' with store := store' }, [.addedHeaderFromHeaderSub new_head_height])
          | .error _ => (w', [])
        else (w', [])

/-- Embedded from `Worker::on_fetch_next_batch_result` (`syncer.rs` lines
512-553).  Returns the new worker state and the emitted events.  Note
that the source does not return after emitting `FetchingHeadersFailed`
for a store-insert error, so it falls through to also emit
`FetchingHeadersFinished`. -/
def WorkerState.on_fetch_next_batch_result (w : WorkerState)
    (res : Except P2pError (List ExtendedHeader)) (took : Nat) :
    WorkerState × List NodeEvent :=
  match w.ongoing_batch with
  | none => (w, [])
  | some ongoing =>
    let w' := { w with ongoing_batch := none }
    let from_height := ongoing.start
    let to_height := ongoing.stop
    match res with
    | .error e => (w', [.fetchingHeadersFailed from_height to_height (.p2p e) took])
    | .ok headers =>
      match w'.store.insert headers with
      | .error e =>
        (w', [.fetchingHeadersFailed from_height to_height (.store e) took,
              .fetchingHeadersFinished from_height to_height took])
      | .ok store' =>
        ({ w' with store := store' }, [.fetchingHeadersFinished from_height to_height took])

/-- Constant from `src/node/src/syncer.rs` line 40: 30 days in seconds. -/
def SYNCING_WINDOW : Nat := 30 * 24 * 60 * 60

/-- Constant from `src/node/src/pruner.rs` line 20: one hour behind the
syncing window. -/
def PRUNING_WINDOW : Nat := SYNCING_WINDOW + 60 * 60

/-- Embedded from `Worker::try_prune_tail` (`pruner.rs` line 139): the
pruning window end, clamped to the unix epoch on underflow (the
`checked_sub` / `unix_epoch` fallback). -/
def pruning_window_end (now : Int) : Int :=
  max 0 (now - (PRUNING_WINDOW : Int))

/-- Modelled from the spec: the `Blockstore` collaborator consumed by the
pruner (not under `src/`); `cids` is its content set and `removeFail`
models CIDs whose removal hits a backend fault. -/
structure BlockstoreModel where
  cids : List Nat
  removeFail : List Nat
  deriving DecidableEq, Repr

/-- Modelled from the spec: `Blockstore::remove(cid)`; a fault leaves the
blockstore unchanged and surfaces a `Blockstore` error. -/
def BlockstoreModel.remove (bs : BlockstoreModel) (cid : Nat) :
    Except PrunerError BlockstoreModel :=
  if cid ∈ bs.removeFail then .error .blockstore
  else .ok { bs with cids := bs.cids.erase cid }

/-- A store or blockstore call made by the pruner, recorded in order. -/
inductive PruneOp where
  | removeCid (cid : Nat)
  | removeTail (height : Nat)
  deriving DecidableEq, Repr

/-- State threaded through the pruner worker (`pruner.rs` `Worker`). -/
structure PrunerState where
  store : StoreModel
  blockstore : BlockstoreModel
  deriving DecidableEq, Repr

/-- Embedded from `Worker::get_current_tail` (`pruner.rs` lines 162-173):
the tail height from the stored ranges, its header, and its sampling
CIDs (empty when no metadata exists). -/
def get_current_tail (s : StoreModel) :
    Except PrunerError (Option (ExtendedHeader × List Nat)) :=
  match s.get_stored_header_ranges with
  | .error e => .error (.store e)
  | .ok ranges =>
    match blockRangesTail ranges with
    | none => .ok none
    | some tailHeight =>
      match s.get_by_height tailHeight with
      | .error e => .error (.store e)
      | .ok header =>
        match s.get_sampling_metadata header.height with
        | .error e => .error (.store e)
        | .ok metadata => .ok (some (header, metadata.getD []))

/-- Embedded from the CID-removal loop inside `Worker::try_prune_tail`
(`pruner.rs` lines 153-155): removes CIDs in order, stopping at the
first blockstore error.  Returns the recorded calls, the resulting
blockstore and the error, if any. -/
def removeCidsLoop (bs : BlockstoreModel) :
    List Nat → List PruneOp × BlockstoreModel × Option PrunerError
  | [] => ([], bs, none)
  | c :: cs =>
    match bs.remove c with
    | .error e => ([.removeCid c], bs, some e)
    | .ok bs' =>
      let r := removeCidsLoop bs' cs
      (.removeCid c :: r.1, r.2)

/-- Embedded from `Worker::try_prune_tail` (`pruner.rs` lines 138-160).
The `loop` is given a fuel parameter; the middle component is `none`
when the loop has not returned within the fuel.  Note that the source
loop has no exit branch when the tail header is inside the pruning
window: the `if` guard fails and the loop immediately re-reads the
unchanged tail, which the fuel-consuming recursive call mirrors. -/
def try_prune_tail (now : Int) : Nat → PrunerState →
    List PruneOp × Option (Except PrunerError Unit) × PrunerState
  | 0, st => ([], none, st)
  | fuel + 1, st =>
    match get_current_tail st.store with
    | .error e => ([], some (.error e), st)
    | .ok none => ([], some (.ok ()), st)
    | .ok (some (tail_header, cids)) =>
      if tail_header.time < pruning_window_end now then
        match removeCidsLoop st.blockstore cids with
        | (ops, bs', some e) => (ops, some (.error e), { st with blockstore := bs' })
        | (ops, bs', none) =>
          match st.store.remove_tail tail_header.height with
          | .error e =>
            (ops ++ [.removeTail tail_header.height], some (.error (.store e)),
             { st with blockstore := bs' })
          | .ok store' =>
            let r := try_prune_tail now fuel { store := store', blockstore := bs' }
            (ops ++ .removeTail tail_header.height :: r.1, r.2)
      else
        try_prune_tail now fuel st

/-- Embedded from `Pruner::start` (`pruner.rs` lines 70-78): when the
worker run loop ends with an error, a `FatalPrunerError` event is
published; an absent result (`none`, the loop still running) or a clean
exit publishes nothing. -/
def pruner_run_events (res : Option (Except PrunerError Unit)) : List NodeEvent :=
  match res with
  | some (.error e) => [.fatalPrunerError e]
  | _ => []

/-- The CID list associated with a stored height: the sampling metadata
row of that height, or empty when none exists. -/
def metaCids (s : StoreModel) (height : Nat) : List Nat :=
  (s.metadata.lookup height).getD []

/-- Ordering property of a pruner call trace: whenever position `i`
holds the tail removal of height `h`, every CID associated with `h` was
the subject of an earlier blockstore removal call. -/
def CidsBeforeTail (meta : Nat → List Nat) (ops : List PruneOp) : Prop :=
  ∀ i h, ops.get? i = some (.removeTail h) →
    ∀ c ∈ meta h, ∃ j, j < i ∧ ops.get? j = some (.removeCid c)

/-- Constant `MAX_PEERS` from `src/node/src/exchange/client.rs` line 27. -/
def MAX_PEERS : Nat := 10

/-- Constant `TIMEOUT` from `src/node/src/exchange/client.rs` line 28,
in seconds. -/
def TIMEOUT : Nat := 10

/-- Constant `MIN_HEAD_RESPONSES` from `send_head_request`
(`client.rs` line 123). -/
def MIN_HEAD_RESPONSES : Nat := 2

/-- Model of `header_request::Data`: the tagged union of an origin
height and a hash. -/
inductive HeaderRequestData where
  | origin (height : Nat)
  | hash (h : Nat)
  deriving DecidableEq, Repr

/-- Model of the protobuf `HeaderRequest`. -/
structure HeaderRequest where
  data : Option HeaderRequestData
  amount : Nat
  deriving DecidableEq, Repr

/-- Modelled from the spec: a `HeaderResponse` is opaque bytes plus a
status code, and `to_extended_header` (in `exchange/utils.rs`, not under
`src/`) either decodes an intrinsically valid header or yields an
exchange error; a response is modelled by that decode outcome. -/
def HeaderResponseModel : Type := Except ExchangeError ExtendedHeader

/-- Decode every response in order, propagating the first decode error
(the `?` inside the chunked loop of `decode_and_verify_responses`). -/
def decodeAll : List HeaderResponseModel → Except ExchangeError (List ExtendedHeader)
  | [] => .ok []
  | r :: rs =>
    match r with
    | Except.error e => .error e
    | Except.ok h =>
      match decodeAll rs with
      | Except.error e => .error e
      | Except.ok hs => .ok (h :: hs)

/-- The ascending-height order used by the `sort_unstable_by_key` call in
`decode_and_verify_responses`. -/
def heightLe (a b : ExtendedHeader) : Prop := a.height ≤ b.height

instance : DecidableRel heightLe := fun a b =>
  inferInstanceAs (Decidable (a.height ≤ b.height))

/-- Embedded from `decode_and_verify_responses` (`client.rs` lines
268-326): reject empty replies and replies longer than `amount`, decode
and intrinsically validate each response, sort ascending by height, then
check the shape against the request.  Note that the `Origin(start)` arm
matches the heights against `start .. start + headers.len()` (the local
`amount` binding shadows the requested amount with the response
length). -/
def decode_and_verify_responses (request : HeaderRequest)
    (responses : List HeaderResponseModel) : Except ExchangeError (List ExtendedHeader) :=
  if responses.isEmpty then .error .invalidResponse
  else if request.amount < responses.length then .error .invalidResponse
  else
    match decodeAll responses with
    | .error e => .error e
    | .ok decoded =>
      let headers := decoded.insertionSort heightLe
      match request.data, headers with
      | some (.origin 0), [h] => .ok [h]
      | some (.origin start), hs =>
        if 0 < start ∧ 0 < hs.length then
          if (hs.zip (List.range' start hs.length)).all (fun p => p.1.height == p.2)
          then .ok hs
          else .error .invalidResponse
        else .error .invalidResponse
      | some (.hash hsh), [h] =>
        if h.hash = hsh then .ok [h] else .error .invalidResponse
      | _, _ => .error .invalidResponse

/-- The per-hash peer count of the head election: how many surviving
replies reported this hash (the `counter` HashMap in
`send_head_request`). -/
def countHash (resps : List ExtendedHeader) (hsh : Nat) : Nat :=
  (resps.filter (fun r => r.hash == hsh)).length

/-- Lexicographic order on `(height, peer count)` keys; `keyLexLe p q`
means `p` is at most `q`. -/
def keyLexLe (p q : Nat × Nat) : Prop :=
  p.1 < q.1 ∨ (p.1 = q.1 ∧ p.2 ≤ q.2)

instance : DecidableRel keyLexLe := fun p q =>
  inferInstanceAs (Decidable (p.1 < q.1 ∨ (p.1 = q.1 ∧ p.2 ≤ q.2)))

/-- The election key of a survivor: its height paired with its per-hash
peer count. -/
def headKey (resps : List ExtendedHeader) (r : ExtendedHeader) : Nat × Nat :=
  (r.height, countHash resps r.hash)

/-- The descending order used by `resps.sort_unstable_by_key(Reverse
(height, num_of_peers))` in `send_head_request`: `a` comes before `b`
when the key of `b` is at most the key of `a`. -/
def headRel (resps : List ExtendedHeader) (a b : ExtendedHeader) : Prop :=
  keyLexLe (headKey resps b) (headKey resps a)

instance (resps : List ExtendedHeader) : DecidableRel (headRel resps) := fun a b =>
  inferInstanceAs (Decidable (keyLexLe (headKey resps b) (headKey resps a)))

/-- Embedded from the election task in `send_head_request` (`client.rs`
lines 152-190), applied to the list of surviving single-header replies:
no survivors yields `HeaderNotFound`; otherwise sort descending by
`(height, peer count)`, return the first survivor with at least
`MIN_HEAD_RESPONSES` peer votes, or the front of the sorted list when no
hash reached quorum.  The unreachable empty-sorted arm mirrors the
source `expect` on a non-empty list. -/
def send_head_request_election (resps : List ExtendedHeader) :
    Except ExchangeError (List ExtendedHeader) :=
  if resps.isEmpty then .error .headerNotFound
  else
    let sorted := resps.insertionSort (headRel resps)
    match sorted.find? (fun r => MIN_HEAD_RESPONSES ≤ countHash resps r.hash) with
    | some r => .ok [r]
    | none =>
      match sorted with
      | [] => .error .headerNotFound
      | r :: _ => .ok [r]

/-- Embedded from `ExchangeClientHandler::prune_expired_requests`
(`client.rs` lines 239-260): collect the request ids whose elapsed time
reached `TIMEOUT`, then remove each from the pending map and send
`OutboundFailure(Timeout)` on its responder.  Pending requests are
modelled as `(request id, started_at)` pairs and an instant as seconds;
`now` is passed explicitly.  Returns the remaining pending map and the
(id, error) deliveries. -/
def removeAndNotify : List Nat → List (Nat × Nat) →
    List (Nat × Nat) × List (Nat × ExchangeError)
  | [], reqs => (reqs, [])
  | id :: ids, reqs =>
    match reqs.find? (fun r => r.1 == id) with
    | some _ =>
      let r := removeAndNotify ids (reqs.eraseP (fun r => r.1 == id))
      (r.1, (id, .outboundFailure .timeout) :: r.2)
    | none => removeAndNotify ids reqs

/-- Embedded from `prune_expired_requests`: the two-phase sweep (collect
expired ids, then remove and notify). -/
def prune_expired_requests (now : Nat) (reqs : List (Nat × Nat)) :
    List (Nat × Nat) × List (Nat × ExchangeError) :=
  removeAndNotify
    ((reqs.filter (fun r => TIMEOUT ≤ now - r.2)).map (·.1)) reqs

/-! Concrete inputs used by counterexamples and witnesses. -/

/-- A store holding the single header of height 1. -/
def exStore1 : StoreModel := ⟨[⟨1, 11, 0⟩], [], false, []⟩

/-- Worker with an ongoing batch over height 3 whose store head is at
height 1, so inserting a height-3 header is a non-continuous append. -/
def exWorkerInsertFail : WorkerState := ⟨some 3, some ⟨3, 3⟩, exStore1⟩

/-- Worker with no ongoing batch. -/
def exWorkerNoBatch : WorkerState := ⟨some 3, none, exStore1⟩

/-- Worker over a store whose range query hits a backend fault. -/
def exWorkerRangesFail : WorkerState := ⟨none, none, ⟨[⟨1, 11, 0⟩], [], true, []⟩⟩

/-- Worker whose store head (height 1) is adjacent to the height-2 head
announced on header-sub. -/
def exWorkerAdjacent : WorkerState := ⟨some 5, none, exStore1⟩

/-- Pruner state whose tail header (height 1, time 100) lies inside the
pruning window for `now = 50`. -/
def exPrunerInWindow : PrunerState := ⟨⟨[⟨1, 11, 100⟩, ⟨2, 22, 112⟩], [], false, []⟩, ⟨[], []⟩⟩

/-- Pruner state whose out-of-window tail header owns CIDs 101 and 102,
with removal of CID 102 hitting a blockstore fault. -/
def exPrunerCidFail : PrunerState :=
  ⟨⟨[⟨1, 11, -5⟩], [(1, [101, 102])], false, []⟩, ⟨[101, 102], [102]⟩⟩

/-- Concrete headers of heights 5, 6 and 7. -/
def exH5 : ExtendedHeader := ⟨5, 105, 0⟩

/-- Concrete header of height 6. -/
def exH6 : ExtendedHeader := ⟨6, 106, 0⟩

/-- Concrete header of height 7. -/
def exH7 : ExtendedHeader := ⟨7, 107, 0⟩

/-- Survivor list for the head election: hash 55 is reported twice at
height 5, height 7 is reported once. -/
def exSurvivors : List ExtendedHeader := [⟨5, 55, 0⟩, ⟨7, 77, 0⟩, ⟨5, 55, 0⟩, ⟨5, 56, 0⟩]

/-- Pending-request map with one expired entry (id 1, started at 0) and
one fresh entry (id 2, started at 95), swept at `now = 100`. -/
def exReqs : List (Nat × Nat) := [(1, 0), (2, 95)]

/-! Theorems. -/

/-- Updating the subjective head with a new height keeps the maximum of
the old and the new height. -/
theorem set_subjective_head_height_some (c h : Nat) :
    set_subjective_head_height (some c) h = some (max c h) := by
  by_cases hle : h ≤ c
  · simp [set_subjective_head_height, hle, Nat.max_eq_left hle]
  · simp [set_subjective_head_height, hle, Nat.max_eq_right (le_of_not_le hle)]

/-- C9: if a batch result arrives while `ongoing_batch` is `None`, the
syncer discards it: the worker state (including the store) is unchanged
and no event is emitted. -/
theorem syncer_discards_result_without_ongoing_batch (w : WorkerState)
    (res : Except P2pError (List ExtendedHeader)) (took : Nat)
    (h : w.ongoing_batch = none) :
    w.on_fetch_next_batch_result res took = (w, []) := by
  unfold WorkerState.on_fetch_next_batch_result
  rw [h]

/-- Witness for the discarded batch result: a concrete worker with no
ongoing batch. -/
theorem syncer_discards_result_without_ongoing_batch_witness :
    exWorkerNoBatch.ongoing_batch = none ∧
    exWorkerNoBatch.on_fetch_next_batch_result (.error .noConnectedPeers) 3 =
      (exWorkerNoBatch, []) :=
  ⟨rfl, syncer_discards_result_without_ongoing_batch exWorkerNoBatch
    (.error .noConnectedPeers) 3 rfl⟩

/-- C5: the subjective head height starts unset and is reported as 0;
a call of `set_subjective_head_height` with a height at most the stored
one leaves it unchanged, and the reported value never decreases, so it
is monotone non-decreasing for the lifetime of the worker. -/
theorem syncer_subjective_head_monotone :
    (∀ store, (WorkerState.new store).subjective_head_height = none) ∧
    (∀ w : WorkerState, w.subjective_head_height = none →
      w.syncing_info.subjective_head = 0) ∧
    (∀ old h, h ≤ old → set_subjective_head_height (some old) h = some old) ∧
    (∀ cur h, cur.getD 0 ≤ (set_subjective_head_height cur h).getD 0) := by
  refine ⟨fun _ => rfl, fun w hw => ?_, fun old h hle => ?_, fun cur h => ?_⟩
  · simp [WorkerState.syncing_info, hw]
  · simp [set_subjective_head_height, hle]
  · cases cur with
    | none => simp [set_subjective_head_height]
    | some old =>
      by_cases hle : h ≤ old <;> simp [set_subjective_head_height, hle]
      omega

/-- Witness for subjective-head monotonicity at concrete values. -/
theorem syncer_subjective_head_monotone_witness :
    (3 : Nat) ≤ 5 ∧ set_subjective_head_height (some 5) 3 = some 5 ∧
    (WorkerState.new exStore1).subjective_head_height = none ∧
    (WorkerState.new exStore1).syncing_info.subjective_head = 0 :=
  ⟨by decide, syncer_subjective_head_monotone.2.2.1 5 3 (by decide), rfl,
   syncer_subjective_head_monotone.2.1 (WorkerState.new exStore1) rfl⟩

/-- C8: a `GetInfo` snapshot never propagates a store error: when the
range query fails, `stored_headers` is the default empty `BlockRanges`,
and an unset subjective head is reported as 0. -/
theorem syncer_get_info_swallows_store_error (w : WorkerState)
    (h : w.store.rangesFail = true) :
    w.on_cmd_get_info.stored_headers = [] ∧
    (w.subjective_head_height = none → w.on_cmd_get_info.subjective_head = 0) := by
  constructor
  · simp [WorkerState.on_cmd_get_info, WorkerState.syncing_info,
      StoreModel.get_stored_header_ranges, h]
  · intro hn
    simp [WorkerState.on_cmd_get_info, WorkerState.syncing_info, hn]

/-- Witness for the `GetInfo` snapshot on a store whose range query
fails. -/
theorem syncer_get_info_swallows_store_error_witness :
    exWorkerRangesFail.store.rangesFail = true ∧
    exWorkerRangesFail.on_cmd_get_info.stored_headers = [] ∧
    exWorkerRangesFail.on_cmd_get_info.subjective_head = 0 :=
  ⟨rfl, (syncer_get_info_swallows_store_error exWorkerRangesFail rfl).1,
   (syncer_get_info_swallows_store_error exWorkerRangesFail rfl).2 rfl⟩

/-- C2 (code bug): when the batch fetch succeeds but the store insert
fails, `on_fetch_next_batch_result` emits `FetchingHeadersFailed` and
then falls through (the source lacks a `return` in that branch) to also
emit `FetchingHeadersFinished`, contradicting the specified
one-event-per-batch outcome. -/
theorem syncer_insert_failure_emits_failed_and_finished :
    (exWorkerInsertFail.on_fetch_next_batch_result (.ok [⟨3, 33, 0⟩]) 7).2 =
      [.fetchingHeadersFailed 3 3 (.store (.nonContinuousAppend 1 3)) 7,
       .fetchingHeadersFinished 3 3 7] := by
  decide

/-- C1 (code bug): when the store is non-empty and the tail header's
time is inside the pruning window, `try_prune_tail` never returns: for
every fuel bound the loop is still running (result `none`), having
removed nothing and left the state unchanged, so the worker never
reaches its sleep. -/
theorem pruner_tail_in_window_never_returns (now : Int) (st : PrunerState)
    (hdr : ExtendedHeader) (cids : List Nat)
    (htail : get_current_tail st.store = .ok (some (hdr, cids)))
    (htime : 0 ≤ hdr.time) (hwin : now - (PRUNING_WINDOW : Int) ≤ hdr.time) :
    ∀ fuel, try_prune_tail now fuel st = ([], none, st) := by
  have hin : ¬ hdr.time < pruning_window_end now := by
    simp only [pruning_window_end, not_lt]
    exact max_le htime hwin
  intro fuel
  induction fuel with
  | zero => rfl
  | succ n ih =>
    unfold try_prune_tail
    rw [htail]
    simp only [hin, if_false]
    exact ih

/-- Witness that the pruner loop makes no progress on an in-window tail:
a concrete two-header store at fuel 30. -/
theorem pruner_tail_in_window_never_returns_witness :
    get_current_tail exPrunerInWindow.store = .ok (some (⟨1, 11, 100⟩, [])) ∧
    (0 : Int) ≤ 100 ∧ 50 - (PRUNING_WINDOW : Int) ≤ 100 ∧
    try_prune_tail 50 30 exPrunerInWindow = ([], none, exPrunerInWindow) :=
  ⟨rfl, by decide, by decide,
   pruner_tail_in_window_never_returns 50 exPrunerInWindow ⟨1, 11, 100⟩ [] rfl
     (by decide) (by decide) 30⟩

/-- C7: a header-sub message is ignored while the subjective head is
unset or the latch is empty; otherwise the subjective head becomes the
maximum of the current and the announced height, and the announced head
is inserted (emitting `AddedHeaderFromHeaderSub` on success) exactly
when the store head height plus one equals the announced height;
non-adjacent heads leave the store unchanged and emit nothing. -/
theorem syncer_header_sub_adjacency (w : WorkerState) (latch : Option ExtendedHeader) :
    (w.subjective_head_height = none → w.on_header_sub_message latch = (w, [])) ∧
    (latch = none → w.on_header_sub_message latch = (w, [])) ∧
    (∀ cur hd, w.subjective_head_height = some cur → latch = some hd →
      (w.on_header_sub_message latch).1.subjective_head_height = some (max cur hd.height) ∧
      (w.on_header_sub_message latch).1.ongoing_batch = w.ongoing_batch ∧
      (∀ e, w.store.head_height = .error e →
        (w.on_header_sub_message latch).1.store = w.store ∧
        (w.on_header_sub_message latch).2 = []) ∧
      (∀ k, w.store.head_height = .ok k → k + 1 ≠ hd.height →
        (w.on_header_sub_message latch).1.store = w.store ∧
        (w.on_header_sub_message latch).2 = []) ∧
      (∀ k s', w.store.head_height = .ok k → k + 1 = hd.height →
        w.store.insert [hd] = .ok s' →
        (w.on_header_sub_message latch).1.store = s' ∧
        (w.on_header_sub_message latch).2 = [.addedHeaderFromHeaderSub hd.height]) ∧
      (∀ k e, w.store.head_height = .ok k → k + 1 = hd.height →
        w.store.insert [hd] = .error e →
        (w.on_header_sub_message latch).1.store = w.store ∧
        (w.on_header_sub_message latch).2 = [])) := by
  obtain ⟨sh, ob, st⟩ := w
  refine ⟨fun h => ?_, fun h => ?_, fun cur hd hsh hlatch => ?_⟩
  · simp only at h
    subst h
    simp [WorkerState.on_header_sub_message]
  · subst h
    cases sh <;> simp [WorkerState.on_header_sub_message]
  · simp only at hsh
    subst hsh
    subst hlatch
    rcases hh : StoreModel.head_height st with e | k
    · simp [WorkerState.on_header_sub_message, hh, set_subjective_head_height_some]
    · by_cases hadj : k + 1 = hd.height
      · rcases hins : StoreModel.insert st [hd] with e2 | s2
        · simp [WorkerState.on_header_sub_message, hh, hins, hadj,
            set_subjective_head_height_some]
        · simp [WorkerState.on_header_sub_message, hh, hins, hadj,
            set_subjective_head_height_some]
      · simp [WorkerState.on_header_sub_message, hh, hadj,
          set_subjective_head_height_some]
        intro k1 s' hk1 heq
        exact fun _ => hadj (by omega)

/-- Witness for the header-sub adjacency behaviour: a store with head
height 1 receives the adjacent height-2 head and inserts it. -/
theorem syncer_header_sub_adjacency_witness :
    exWorkerAdjacent.subjective_head_height = some 5 ∧
    exWorkerAdjacent.store.head_height = .ok 1 ∧ 1 + 1 = (2 : Nat) ∧
    exWorkerAdjacent.store.insert [⟨2, 22, 0⟩] =
      .ok ⟨[⟨1, 11, 0⟩, ⟨2, 22, 0⟩], [], false, []⟩ ∧
    (exWorkerAdjacent.on_header_sub_message (some ⟨2, 22, 0⟩)).1.subjective_head_height
      = some (max 5 2) ∧
    (exWorkerAdjacent.on_header_sub_message (some ⟨2, 22, 0⟩)).1.store
      = ⟨[⟨1, 11, 0⟩, ⟨2, 22, 0⟩], [], false, []⟩ ∧
    (exWorkerAdjacent.on_header_sub_message (some ⟨2, 22, 0⟩)).2
      = [.addedHeaderFromHeaderSub 2] :=
  ⟨rfl, rfl, rfl, rfl,
   ((syncer_header_sub_adjacency exWorkerAdjacent (some ⟨2, 22, 0⟩)).2.2 5 ⟨2, 22, 0⟩
      rfl rfl).1,
   (((syncer_header_sub_adjacency exWorkerAdjacent (some ⟨2, 22, 0⟩)).2.2 5 ⟨2, 22, 0⟩
      rfl rfl).2.2.2.2.1 1 ⟨[⟨1, 11, 0⟩, ⟨2, 22, 0⟩], [], false, []⟩ rfl rfl rfl).1,
   (((syncer_header_sub_adjacency exWorkerAdjacent (some ⟨2, 22, 0⟩)).2.2 5 ⟨2, 22, 0⟩
      rfl rfl).2.2.2.2.1 1 ⟨[⟨1, 11, 0⟩, ⟨2, 22, 0⟩], [], false, []⟩ rfl rfl rfl).2⟩

/-- In a pending map with distinct request ids, the entry carrying a
given id does not survive erasure by that id. -/
theorem notmem_eraseP_of_unique (id : Nat) :
    ∀ (l : List (Nat × Nat)), (l.map Prod.fst).Nodup →
      ∀ p ∈ l, p.1 = id → p ∉ l.eraseP (fun r => r.1 == id) := by
  intro l
  induction l with
  | nil => simp
  | cons x xs ih =>
    intro hnd p hp hpid
    rw [List.map_cons, List.nodup_cons] at hnd
    cases hxb : (x.1 == id) with
    | true =>
      have hx1 : x.1 = id := by simpa using hxb
      simp only [List.eraseP_cons, hxb, cond_true]
      rcases List.mem_cons.mp hp with hpx | hpxs
      · subst hpx
        intro hmem
        exact hnd.1 (List.mem_map.mpr ⟨p, hmem, rfl⟩)
      · intro _
        exact hnd.1 (List.mem_map.mpr ⟨p, hpxs, by rw [hpid, hx1]⟩)
    | false =>
      have hx1 : ¬ x.1 = id := by simpa using hxb
      simp only [List.eraseP_cons, hxb, cond_false]
      intro hmem
      rcases List.mem_cons.mp hmem with hpx | hpxs
      · exact hx1 (hpx ▸ hpid)
      · rcases List.mem_cons.mp hp with hpx | hpl
        · exact hx1 (hpx ▸ hpid)
        · exact ih hnd.2 p hpl hpid hpxs

/-- Entries remaining after `removeAndNotify` were pending before and
their id was not in the processed id list (given distinct ids). -/
theorem removeAndNotify_mem_fst :
    ∀ (ids : List Nat) (reqs : List (Nat × Nat)), (reqs.map Prod.fst).Nodup →
      ∀ p ∈ (removeAndNotify ids reqs).1, p ∈ reqs ∧ p.1 ∉ ids := by
  intro ids
  induction ids with
  | nil =>
    intro reqs _ p hp
    simp only [removeAndNotify] at hp
    exact ⟨hp, by simp⟩
  | cons id ids ih =>
    intro reqs hnd p hp
    cases hfind : reqs.find? (fun r => r.1 == id) with
    | none =>
      simp only [removeAndNotify, hfind] at hp
      obtain ⟨hmem, hnin⟩ := ih reqs hnd p hp
      have hne : ¬ p.1 = id := by
        have := List.find?_eq_none.mp hfind p hmem
        simpa using this
      exact ⟨hmem, by simp [List.mem_cons, hne, hnin]⟩
    | some q =>
      simp only [removeAndNotify, hfind] at hp
      have hsub : List.Sublist (reqs.eraseP (fun r => r.1 == id)) reqs :=
        List.eraseP_sublist reqs
      have hnd' : ((reqs.eraseP (fun r => r.1 == id)).map Prod.fst).Nodup :=
        List.Nodup.sublist (List.Sublist.map Prod.fst hsub) hnd
      obtain ⟨hmem', hnin⟩ := ih _ hnd' p hp
      have hmem : p ∈ reqs := hsub.subset hmem'
      have hne : ¬ p.1 = id := fun hpi =>
        notmem_eraseP_of_unique id reqs hnd p hmem hpi hmem'
      exact ⟨hmem, by simp [List.mem_cons, hne, hnin]⟩

/-- Every pending entry whose id is in the processed id list gets the
timeout failure delivered on its responder. -/
theorem removeAndNotify_sent :
    ∀ (ids : List Nat) (reqs : List (Nat × Nat)) (p : Nat × Nat), p ∈ reqs → p.1 ∈ ids →
      (p.1, ExchangeError.outboundFailure .timeout) ∈ (removeAndNotify ids reqs).2 := by
  intro ids
  induction ids with
  | nil => simp
  | cons id ids ih =>
    intro reqs p hp hpid
    cases hfind : reqs.find? (fun r => r.1 == id) with
    | none =>
      have hne : ¬ p.1 = id := by
        have := List.find?_eq_none.mp hfind p hp
        simpa using this
      have hpid' : p.1 ∈ ids := by
        rcases List.mem_cons.mp hpid with h | h
        · exact absurd h hne
        · exact h
      simp only [removeAndNotify, hfind]
      exact ih reqs p hp hpid'
    | some q =>
      simp only [removeAndNotify, hfind]
      by_cases hpi : p.1 = id
      · exact List.mem_cons.mpr (Or.inl (by rw [hpi]))
      · have hpid' : p.1 ∈ ids := by
          rcases List.mem_cons.mp hpid with h | h
          · exact absurd h hpi
          · exact h
        have hpe : p ∈ reqs.eraseP (fun r => r.1 == id) :=
          (List.mem_eraseP_of_neg (by simpa using hpi)).mpr hp
        exact List.mem_cons.mpr (Or.inr (ih _ p hpe hpid'))

/-- C6: after a timeout sweep of a pending map with distinct request
ids, every request whose elapsed time reached `TIMEOUT` has been removed
and its responder was sent `OutboundFailure(Timeout)`, and no surviving
pending request has an elapsed time of `TIMEOUT` or more. -/
theorem exchange_timeout_sweep (now : Nat) (reqs : List (Nat × Nat))
    (hnd : (reqs.map Prod.fst).Nodup) :
    (∀ p ∈ reqs, TIMEOUT ≤ now - p.2 →
      p ∉ (prune_expired_requests now reqs).1 ∧
      (p.1, ExchangeError.outboundFailure .timeout) ∈ (prune_expired_requests now reqs).2) ∧
    (∀ p ∈ (prune_expired_requests now reqs).1, now - p.2 < TIMEOUT) := by
  simp only [prune_expired_requests]
  constructor
  · intro p hp hexp
    have hpid : p.1 ∈ (reqs.filter (fun r => TIMEOUT ≤ now - r.2)).map (·.1) :=
      List.mem_map.mpr ⟨p, List.mem_filter.mpr ⟨hp, by simpa using hexp⟩, rfl⟩
    constructor
    · intro hmem
      exact (removeAndNotify_mem_fst _ reqs hnd p hmem).2 hpid
    · exact removeAndNotify_sent _ reqs p hp hpid
  · intro p hmem
    obtain ⟨hp, hnin⟩ := removeAndNotify_mem_fst _ reqs hnd p hmem
    by_contra hge
    push_neg at hge
    exact hnin (List.mem_map.mpr ⟨p, List.mem_filter.mpr ⟨hp, by simpa using hge⟩, rfl⟩)

/-- Witness for the timeout sweep: id 1 started at 0 is expired at
`now = 100`, id 2 started at 95 is fresh. -/
theorem exchange_timeout_sweep_witness :
    (exReqs.map Prod.fst).Nodup ∧
    (1, 0) ∈ exReqs ∧ TIMEOUT ≤ 100 - 0 ∧
    (1, 0) ∉ (prune_expired_requests 100 exReqs).1 ∧
    (1, ExchangeError.outboundFailure .timeout) ∈ (prune_expired_requests 100 exReqs).2 :=
  ⟨by decide, by decide, by decide,
   ((exchange_timeout_sweep 100 exReqs (by decide)).1 (1, 0) (by decide) (by decide)).1,
   ((exchange_timeout_sweep 100 exReqs (by decide)).1 (1, 0) (by decide) (by decide)).2⟩

/-- When the CID-removal loop finishes without an error its trace is
exactly one blockstore removal call per CID, in order. -/
theorem removeCidsLoop_ops_of_ok :
    ∀ (cs : List Nat) (bs : BlockstoreModel), (removeCidsLoop bs cs).2.2 = none →
      (removeCidsLoop bs cs).1 = cs.map PruneOp.removeCid := by
  intro cs
  induction cs with
  | nil => intro bs _; rfl
  | cons c cs ih =>
    intro bs hnone
    cases hr : bs.remove c with
    | error e =>
      simp only [removeCidsLoop, hr] at hnone
      exact absurd hnone (by simp)
    | ok bs' =>
      simp only [removeCidsLoop, hr] at hnone ⊢
      simp [List.map_cons, ih bs' hnone]

/-- Every call recorded by the CID-removal loop is a blockstore
removal. -/
theorem removeCidsLoop_ops_are_cids :
    ∀ (cs : List Nat) (bs : BlockstoreModel) (op : PruneOp),
      op ∈ (removeCidsLoop bs cs).1 → ∃ c, op = PruneOp.removeCid c := by
  intro cs
  induction cs with
  | nil => intro bs op hop; simp [removeCidsLoop] at hop
  | cons c cs ih =>
    intro bs op hop
    cases hr : bs.remove c with
    | error e =>
      simp only [removeCidsLoop, hr] at hop
      simp at hop
      exact ⟨c, hop⟩
    | ok bs' =>
      simp only [removeCidsLoop, hr] at hop
      rcases List.mem_cons.mp hop with hop | hop
      · exact ⟨c, hop⟩
      · exact ih bs' op hop

/-- A trace containing no tail-removal call vacuously satisfies the
CID-ordering property. -/
theorem cidsBeforeTail_of_no_tail (meta : Nat → List Nat) (ops : List PruneOp)
    (hops : ∀ op ∈ ops, ∃ c, op = PruneOp.removeCid c) : CidsBeforeTail meta ops := by
  intro i h hop c hc
  obtain ⟨c', hc'⟩ := hops _ (List.get?_mem hop)
  exact absurd hc' (by simp)

/-- Prepending a complete pruning step (all CID removals of a height
followed by its tail removal) preserves the CID-ordering property. -/
theorem cidsBeforeTail_block (meta : Nat → List Nat) (h : Nat) (rest : List PruneOp)
    (hrest : CidsBeforeTail meta rest) :
    CidsBeforeTail meta ((meta h).map PruneOp.removeCid ++ PruneOp.removeTail h :: rest) := by
  intro i h' hop c hc
  rcases lt_trichotomy i (meta h).length with hlt | heq | hgt
  · rw [List.get?_append (by simpa using hlt)] at hop
    obtain ⟨c0, _, hc0⟩ := List.mem_map.mp (List.get?_mem hop)
    exact absurd hc0 (by simp)
  · rw [List.get?_append_right (by simp; omega)] at hop
    rw [heq] at hop
    simp only [List.length_map, Nat.sub_self] at hop
    injection hop with hop
    injection hop with hop
    subst hop
    obtain ⟨j, hjget⟩ := List.mem_iff_get?.mp hc
    have hjlt : j < (meta h).length := (List.get?_eq_some.mp hjget).1
    refine ⟨j, by omega, ?_⟩
    rw [List.get?_append (by simpa using hjlt)]
    rw [List.get?_map, hjget]
    rfl
  · rw [List.get?_append_right (by simp; omega)] at hop
    simp only [List.length_map] at hop
    obtain ⟨k, hk⟩ : ∃ k, i - (meta h).length = k + 1 := ⟨i - (meta h).length - 1, by omega⟩
    rw [hk] at hop
    simp only [List.get?_cons_succ] at hop
    obtain ⟨j, hjk, hjget⟩ := hrest k h' hop c hc
    refine ⟨(meta h).length + 1 + j, by omega, ?_⟩
    rw [List.get?_append_right (by simp; omega)]
    have harith : (meta h).length + 1 + j - ((meta h).map PruneOp.removeCid).length = j + 1 := by
      simp; omega
    rw [harith]
    simpa using hjget

/-- A successful tail removal only drops the first stored header; the
metadata rows and the fault knobs are untouched. -/
theorem remove_tail_ok_fields (s : StoreModel) (h : Nat) (s' : StoreModel)
    (hok : s.remove_tail h = .ok s') :
    s'.metadata = s.metadata ∧ s'.rangesFail = s.rangesFail ∧ s'.headers = s.headers.tail := by
  unfold StoreModel.remove_tail at hok
  split at hok
  · exact (Except.noConfusion hok)
  · injection hok with hok
    subst hok
    exact ⟨rfl, rfl, rfl⟩

/-- When the range query works, `get_current_tail` never fails: it
reports nothing on an empty store and otherwise the first stored header
together with its metadata CIDs. -/
theorem get_current_tail_ok (s : StoreModel) (hrf : s.rangesFail = false) :
    (s.headers = [] ∧ get_current_tail s = .ok none) ∨
    (∃ hd tl, s.headers = hd :: tl ∧
      get_current_tail s = .ok (some (hd, metaCids s hd.height))) := by
  cases hh : s.headers with
  | nil =>
    left
    refine ⟨rfl, ?_⟩
    simp [get_current_tail, StoreModel.get_stored_header_ranges, hrf, hh,
      blockRangesTail, rangesOfHeights]
  | cons hd tl =>
    right
    refine ⟨hd, tl, rfl, ?_⟩
    have hr : ∃ hi rest,
        rangesOfHeights (s.headers.map (·.height)) = (hd.height, hi) :: rest := by
      rw [hh]
      simp only [List.map_cons]
      cases hrr : rangesOfHeights (List.map (·.height) tl) with
      | nil => exact ⟨hd.height, [], by simp [rangesOfHeights, hrr]⟩
      | cons p rest =>
        obtain ⟨lo, hi⟩ := p
        by_cases hadj : hd.height + 1 = lo
        · exact ⟨hi, rest, by simp [rangesOfHeights, hrr, hadj]⟩
        · exact ⟨hd.height, (lo, hi) :: rest, by simp [rangesOfHeights, hrr, hadj]⟩
    obtain ⟨hi, rest, hr⟩ := hr
    have hg : s.get_by_height hd.height = .ok hd := by
      unfold StoreModel.get_by_height
      rw [hh]
      simp [List.find?]
    simp [get_current_tail, StoreModel.get_stored_header_ranges, hrf, hr,
      blockRangesTail, hg, StoreModel.get_sampling_metadata, metaCids]

/-- C10: in every pruning pass, each tail-removal call is preceded by
blockstore removals of all CIDs associated with that height, and when
any removal call fails the pass stops with that error, the worker
publishes `FatalPrunerError` and exits, and the header being pruned is
still the stored tail (later steps never ran). -/
theorem pruner_cids_removed_before_tail (now : Int) :
    ∀ (fuel : Nat) (st : PrunerState), st.store.rangesFail = false →
      CidsBeforeTail (metaCids st.store) (try_prune_tail now fuel st).1 ∧
      (∀ e, (try_prune_tail now fuel st).2.1 = some (.error e) →
        pruner_run_events (try_prune_tail now fuel st).2.1 = [.fatalPrunerError e] ∧
        ∃ hdr, (try_prune_tail now fuel st).2.2.store.headers.head? = some hdr ∧
          hdr.time < pruning_window_end now) := by
  intro fuel
  induction fuel with
  | zero =>
    intro st hrf
    refine ⟨cidsBeforeTail_of_no_tail _ _ (by simp [try_prune_tail]), fun e he => ?_⟩
    simp [try_prune_tail] at he
  | succ n ih =>
    intro st hrf
    rcases get_current_tail_ok st.store hrf with ⟨hempty, htail⟩ | ⟨hd, tl, hcons, htail⟩
    · simp only [try_prune_tail, htail]
      refine ⟨cidsBeforeTail_of_no_tail _ _ (by simp), fun e he => ?_⟩
      simp at he
    · by_cases hin : hd.time < pruning_window_end now
      · rcases hloop : removeCidsLoop st.blockstore (metaCids st.store hd.height)
          with ⟨ops, bs', r⟩
        cases r with
        | some e =>
          simp only [try_prune_tail, htail, if_pos hin, hloop]
          refine ⟨cidsBeforeTail_of_no_tail _ _ (fun op hop => ?_), fun e' he' => ?_⟩
          · exact removeCidsLoop_ops_are_cids _ _ op (by rw [hloop]; exact hop)
          · injection he' with he'
            injection he' with he'
            subst he'
            exact ⟨rfl, ⟨hd, by simp [hcons], hin⟩⟩
        | none =>
          have hops : ops = (metaCids st.store hd.height).map PruneOp.removeCid := by
            have := removeCidsLoop_ops_of_ok (metaCids st.store hd.height) st.blockstore
              (by rw [hloop])
            rw [hloop] at this
            exact this
          cases hrt : st.store.remove_tail hd.height with
          | error e2 =>
            simp only [try_prune_tail, htail, if_pos hin, hloop, hrt]
            constructor
            · rw [hops]
              exact cidsBeforeTail_block _ hd.height []
                (cidsBeforeTail_of_no_tail _ _ (by simp))
            · intro e' he'
              injection he' with he'
              injection he' with he'
              subst he'
              exact ⟨rfl, ⟨hd, by simp [hcons], hin⟩⟩
          | ok store' =>
            obtain ⟨hmeta, hrf', hheaders⟩ := remove_tail_ok_fields st.store hd.height store' hrt
            have hmetaEq : metaCids store' = metaCids st.store := by
              funext x
              simp [metaCids, hmeta]
            obtain ⟨ihc, ihe⟩ := ih ⟨store', bs'⟩ (by rw [hrf']; exact hrf)
            simp only [try_prune_tail, htail, if_pos hin, hloop, hrt]
            constructor
            · rw [hops]
              apply cidsBeforeTail_block
              simpa [hmetaEq] using ihc
            · intro e' he'
              exact ihe e' he'
      · simp only [try_prune_tail, htail, if_neg hin]
        exact ih st hrf

/-- Witness for the pruning-pass properties at a concrete state where
removal of CID 102 fails: the pass aborts with a blockstore error, the
fatal event is published, and the out-of-window tail is still stored. -/
theorem pruner_cids_removed_before_tail_witness :
    exPrunerCidFail.store.rangesFail = false ∧
    (try_prune_tail 50 3 exPrunerCidFail).2.1 = some (.error .blockstore) ∧
    pruner_run_events (try_prune_tail 50 3 exPrunerCidFail).2.1 =
      [.fatalPrunerError .blockstore] ∧
    (∃ hdr, (try_prune_tail 50 3 exPrunerCidFail).2.2.store.headers.head? = some hdr ∧
      hdr.time < pruning_window_end 50) :=
  ⟨rfl, rfl,
   ((pruner_cids_removed_before_tail 50 3 exPrunerCidFail rfl).2 .blockstore rfl).1,
   ((pruner_cids_removed_before_tail 50 3 exPrunerCidFail rfl).2 .blockstore rfl).2⟩

/-- Decoding preserves the number of responses. -/
theorem decodeAll_length :
    ∀ (rs : List HeaderResponseModel) (hs : List ExtendedHeader),
      decodeAll rs = .ok hs → hs.length = rs.length := by
  intro rs
  induction rs with
  | nil =>
    intro hs h
    simp only [decodeAll] at h
    injection h with h
    simp [← h]
  | cons r rs ih =>
    intro hs h
    simp only [decodeAll] at h
    cases r with
    | error e => exact (Except.noConfusion h)
    | ok hd =>
      cases hrec : decodeAll rs with
      | error e => rw [hrec] at h; exact (Except.noConfusion h)
      | ok tl =>
        rw [hrec] at h
        injection h with h
        subst h
        simp [ih tl hrec]

/-- A list whose zip with `range' start len` passes the pointwise height
check has exactly the heights `start, start+1, ...`. -/
theorem heights_of_zip_range :
    ∀ (hs : List ExtendedHeader) (start : Nat),
      ((hs.zip (List.range' start hs.length)).all (fun p => p.1.height == p.2)) = true →
      hs.map (·.height) = List.range' start hs.length := by
  intro hs
  induction hs with
  | nil => intro start _; rfl
  | cons h hs ih =>
    intro start hall
    rw [List.length_cons, List.range'_succ start hs.length 1] at hall ⊢
    simp only [List.zip_cons_cons, List.all_cons, Bool.and_eq_true, beq_iff_eq] at hall
    obtain ⟨h1, h2⟩ := hall
    simp only [List.map_cons, h1]
    congr 1
    exact ih (start + 1) h2

/-- C3 counterexample: for the range request `Origin(5), amount = 3`, a
reply decoding to the two contiguous headers of heights 5 and 6 is
accepted by `decode_and_verify_responses`, although it has 2 headers
rather than the requested 3; the claim that exactly
`start .. start+amount-1` must be returned is therefore false (the
shape check compares against the response length, and the test
insisting on a full range is `#[ignore]`-ed in the source). -/
theorem exchange_range_accepts_shorter_reply :
    decode_and_verify_responses ⟨some (.origin 5), 3⟩ [Except.ok exH6, Except.ok exH5] =
      .ok [exH5, exH6] ∧
    (⟨some (.origin 5), 3⟩ : HeaderRequest).amount = 3 ∧
    [exH5, exH6].length = 2 :=
  ⟨rfl, rfl, rfl⟩

/-- C3 (amended): a reply to `Origin(start)` with `start > 0` is
accepted only if the returned headers form a contiguous run
`start, start+1, ..., start+k-1` with no gaps and no duplicates for
some `k` with `1 ≤ k ≤ amount`; longer replies and any other shape are
rejected. -/
theorem exchange_origin_range_shape (request : HeaderRequest)
    (start : Nat) (responses : List HeaderResponseModel) (headers : List ExtendedHeader)
    (hdata : request.data = some (.origin start)) (hstart : 0 < start)
    (hok : decode_and_verify_responses request responses = .ok headers) :
    headers.map (·.height) = List.range' start headers.length ∧
    1 ≤ headers.length ∧ headers.length ≤ request.amount := by
  unfold decode_and_verify_responses at hok
  by_cases hemp : responses.isEmpty
  · rw [if_pos hemp] at hok; exact (Except.noConfusion hok)
  · rw [if_neg hemp] at hok
    by_cases hlen : request.amount < responses.length
    · rw [if_pos hlen] at hok; exact (Except.noConfusion hok)
    · rw [if_neg hlen] at hok
      cases hdec : decodeAll responses with
      | error e => rw [hdec] at hok; exact (Except.noConfusion hok)
      | ok decoded =>
        rw [hdec] at hok
        rw [hdata] at hok
        split at hok
        all_goals (try exact (Except.noConfusion hok))
        rename_i hs2 heq2
        injection heq2 with heq2
        subst heq2
        simp only at hok
        split at hok
        all_goals (try exact (Except.noConfusion hok))
        · rename_i h1 heq1 heq2
          injection heq1 with heq1
          injection heq1 with heq1
          omega
        · rename_i start2 heq1 hno
          injection heq1 with heq1
          injection heq1 with heq1
          subst heq1
          by_cases hpos : 0 < start ∧ 0 < (List.insertionSort heightLe decoded).length
          · rw [if_pos hpos] at hok
            by_cases hall : (((List.insertionSort heightLe decoded).zip
                (List.range' start (List.insertionSort heightLe decoded).length)).all
                fun p => p.1.height == p.2) = true
            · rw [if_pos hall] at hok
              injection hok with hok
              subst hok
              refine ⟨heights_of_zip_range _ start hall, hpos.2, ?_⟩
              have hlen1 : (List.insertionSort heightLe decoded).length = decoded.length :=
                (List.perm_insertionSort heightLe decoded).length_eq
              have hlen2 := decodeAll_length responses decoded hdec
              omega
            · rw [if_neg hall] at hok
              exact (Except.noConfusion hok)
          · rw [if_neg hpos] at hok
            exact (Except.noConfusion hok)
        · rename_i heq1 heq2
          injection heq1 with heq1
          exact HeaderRequestData.noConfusion heq1

/-- Witness for the amended range-shape theorem: a full contiguous reply
of heights 5, 6, 7 to `Origin(5), amount = 3`. -/
theorem exchange_origin_range_shape_witness :
    (⟨some (.origin 5), 3⟩ : HeaderRequest).data = some (.origin 5) ∧ 0 < 5 ∧
    decode_and_verify_responses ⟨some (.origin 5), 3⟩
      [Except.ok exH5, Except.ok exH6, Except.ok exH7] = .ok [exH5, exH6, exH7] ∧
    ([exH5, exH6, exH7].map (·.height) = List.range' 5 [exH5, exH6, exH7].length ∧
      1 ≤ [exH5, exH6, exH7].length ∧
      [exH5, exH6, exH7].length ≤ (⟨some (.origin 5), 3⟩ : HeaderRequest).amount) :=
  ⟨rfl, by decide, rfl,
   exchange_origin_range_shape ⟨some (.origin 5), 3⟩ 5
     [Except.ok exH5, Except.ok exH6, Except.ok exH7] [exH5, exH6, exH7]
     rfl (by decide) rfl⟩

/-- The lexicographic key order is reflexive. -/
theorem keyLexLe_refl (p : Nat × Nat) : keyLexLe p p := Or.inr ⟨rfl, le_refl _⟩

/-- The lexicographic key order is transitive. -/
theorem keyLexLe_trans {p q r : Nat × Nat} (h1 : keyLexLe p q) (h2 : keyLexLe q r) :
    keyLexLe p r := by
  unfold keyLexLe at h1 h2 ⊢
  omega

/-- The lexicographic key order is total. -/
theorem keyLexLe_total (p q : Nat × Nat) : keyLexLe p q ∨ keyLexLe q p := by
  unfold keyLexLe
  omega

/-- A key at most another has a height at most the other's. -/
theorem keyLexLe_fst_le {p q : Nat × Nat} (h : keyLexLe p q) : p.1 ≤ q.1 := by
  unfold keyLexLe at h
  omega

instance (resps : List ExtendedHeader) : IsTotal ExtendedHeader (headRel resps) :=
  ⟨fun _ _ => keyLexLe_total _ _⟩

instance (resps : List ExtendedHeader) : IsTrans ExtendedHeader (headRel resps) :=
  ⟨fun _ _ _ hab hbc => keyLexLe_trans hbc hab⟩

/-- In a list sorted descending by election key, the entry found by a
predicate scan dominates, in key order, every entry satisfying the
predicate. -/
theorem sorted_find_first (resps : List ExtendedHeader) (p : ExtendedHeader → Bool) :
    ∀ (l : List ExtendedHeader), l.Sorted (headRel resps) → ∀ r, l.find? p = some r →
      ∀ q ∈ l, p q = true → keyLexLe (headKey resps q) (headKey resps r) := by
  intro l
  induction l with
  | nil => intro _ r hf; exact absurd hf (by simp)
  | cons x xs ih =>
    intro hs r hf q hq hpq
    rw [List.sorted_cons] at hs
    cases hx : p x with
    | true =>
      rw [List.find?_cons_of_pos _ hx] at hf
      injection hf with hf
      subst hf
      rcases List.mem_cons.mp hq with rfl | hq'
      · exact keyLexLe_refl _
      · exact hs.1 q hq'
    | false =>
      rw [List.find?_cons_of_neg _ (by simp [hx])] at hf
      rcases List.mem_cons.mp hq with rfl | hq'
      · rw [hx] at hpq
        exact Bool.noConfusion hpq
      · exact ih hs.2 r hf q hq' hpq

/-- C4: the head election returns `HeaderNotFound` without survivors;
with survivors it returns a single surviving header which, whenever some
hash reached the `MIN_HEAD_RESPONSES` quorum, itself has quorum and
dominates every quorum survivor in the `(height, peer count)` descending
order, and, when no hash reached quorum, has the maximum height among
survivors. -/
theorem exchange_head_election (resps : List ExtendedHeader) :
    (resps = [] → send_head_request_election resps = .error .headerNotFound) ∧
    (resps ≠ [] → ∃ r, send_head_request_election resps = .ok [r] ∧ r ∈ resps ∧
      ((∃ q ∈ resps, MIN_HEAD_RESPONSES ≤ countHash resps q.hash) →
        MIN_HEAD_RESPONSES ≤ countHash resps r.hash ∧
        ∀ q ∈ resps, MIN_HEAD_RESPONSES ≤ countHash resps q.hash →
          keyLexLe (headKey resps q) (headKey resps r)) ∧
      ((∀ q ∈ resps, countHash resps q.hash < MIN_HEAD_RESPONSES) →
        ∀ q ∈ resps, q.height ≤ r.height)) := by
  constructor
  · intro h
    subst h
    rfl
  · intro hne
    have hempty : resps.isEmpty = false := by
      cases resps with
      | nil => exact absurd rfl hne
      | cons a l => rfl
    unfold send_head_request_election
    rw [if_neg (by simp [hempty])]
    simp only
    have hperm := List.perm_insertionSort (headRel resps) resps
    have hsort : (resps.insertionSort (headRel resps)).Sorted (headRel resps) :=
      List.sorted_insertionSort (headRel resps) resps
    cases hfind : (resps.insertionSort (headRel resps)).find?
        (fun r => MIN_HEAD_RESPONSES ≤ countHash resps r.hash) with
    | some r =>
      have hrmem : r ∈ resps :=
        (List.mem_insertionSort _).mp (List.mem_of_find?_eq_some hfind)
      have hr2 : MIN_HEAD_RESPONSES ≤ countHash resps r.hash := by
        simpa using List.find?_some hfind
      refine ⟨r, rfl, hrmem, fun _ => ⟨hr2, fun q hq hqq => ?_⟩, fun hall q hq => ?_⟩
      · exact sorted_find_first resps _ _ hsort r hfind q
          ((List.mem_insertionSort _).mpr hq) (by simpa using hqq)
      · exact absurd hr2 (Nat.not_le.mpr (hall r hrmem))
    | none =>
      cases hs : resps.insertionSort (headRel resps) with
      | nil =>
        exfalso
        rw [hs] at hperm
        exact hne hperm.symm.eq_nil
      | cons r rest =>
        have hrmem : r ∈ resps :=
          (List.mem_insertionSort _).mp (by rw [hs]; exact List.mem_cons_self r rest)
        refine ⟨r, rfl, hrmem, fun hex => ?_, fun _ q hq => ?_⟩
        · obtain ⟨q, hq, hqq⟩ := hex
          have := List.find?_eq_none.mp hfind q ((List.mem_insertionSort _).mpr hq)
          exact absurd hqq (by simpa using this)
        · have hqs : q ∈ r :: rest := by
            rw [← hs]
            exact (List.mem_insertionSort _).mpr hq
          rcases List.mem_cons.mp hqs with rfl | hq'
          · exact le_refl _
          · rw [hs] at hsort
            have := (List.sorted_cons.mp hsort).1 q hq'
            exact keyLexLe_fst_le this


/-- Witness for the head election: among four survivors, hash 55 at
height 5 has two votes while the lone height-7 reply has one, so a
quorum exists. -/
theorem exchange_head_election_witness :
    exSurvivors ≠ [] ∧
    (∃ r, send_head_request_election exSurvivors = .ok [r] ∧ r ∈ exSurvivors ∧
      ((∃ q ∈ exSurvivors, MIN_HEAD_RESPONSES ≤ countHash exSurvivors q.hash) →
        MIN_HEAD_RESPONSES ≤ countHash exSurvivors r.hash ∧
        ∀ q ∈ exSurvivors, MIN_HEAD_RESPONSES ≤ countHash exSurvivors q.hash →
          keyLexLe (headKey exSurvivors q) (headKey exSurvivors r)) ∧
      ((∀ q ∈ exSurvivors, countHash exSurvivors q.hash < MIN_HEAD_RESPONSES) →
        ∀ q ∈ exSurvivors, q.height ≤ r.height)) :=
  ⟨by decide, (exchange_head_election exSurvivors).2 (by decide)⟩

end CelestiaNode
